import Mathlib

/-!
Verification of the Bouncy-Balls simulation (src/src/balls.c).

The C program stores positions and velocities in `vec2` structures of
`double`s; we model the `double` fields as real numbers.  Ball radii are C
`int`s, modelled as `ℤ` with the implicit C arithmetic conversions made
explicit as coercions into `ℝ`.  Each Lean definition below embeds the C
function of the same name; SDL drawing calls and `printf` calls are
side-effect-free with respect to the simulation state and are dropped.  The
`subspaces` field of `struct Ball` and `calculateSubspaces` belong to the
inert spatial-partition scaffold: they are written but never read by any of
the collision, motion or rendering code, so they are omitted from the model.
-/

namespace BouncyBalls

open Classical

/-- The `vec2` struct: a two dimensional vector of `double`s. -/
structure vec2 where
  x : ℝ
  y : ℝ

/-- The `Ball` struct: integer radius, position vector `pos`, velocity
vector `dir`.  (The unused `subspaces` scaffold field is omitted.) -/
structure Ball where
  radius : ℤ
  pos : vec2
  dir : vec2

/-- `SCREEN_WIDTH` macro: the arena width in pixels. -/
def SCREEN_WIDTH : ℝ := 1200

/-- `SCREEN_HEIGHT` macro: the arena height in pixels. -/
def SCREEN_HEIGHT : ℝ := 1200

/-- The `pyth(a, b)` macro: `sqrt(pow(a, 2) + pow(b, 2))`. -/
noncomputable def pyth (a b : ℝ) : ℝ := Real.sqrt (a ^ 2 + b ^ 2)

/-- The magnitude computation performed inside `norm` (the local variable
`magnitute` there): `sqrt(pow(v->x, 2) + pow(v->y, 2))`. -/
noncomputable def magnitute (v : vec2) : ℝ := Real.sqrt (v.x ^ 2 + v.y ^ 2)

/-- `norm(vec2* v)`: normalizes the supplied `vec2` in place; modelled as
returning the new vector.  Divides both components by the magnitude. -/
noncomputable def norm (v : vec2) : vec2 :=
  ⟨v.x / magnitute v, v.y / magnitute v⟩

/-- `dot(vec2* v1, vec2* v2)`: the dot product. -/
def dot (v1 v2 : vec2) : ℝ := v1.x * v2.x + v1.y * v2.y

/-- `moveBall(Ball* ball)`: `pos.x += dir.x; pos.y += dir.y`, modelled as
returning the moved ball. -/
def moveBall (ball : Ball) : Ball :=
  { ball with pos := ⟨ball.pos.x + ball.dir.x, ball.pos.y + ball.dir.y⟩ }

/-- `overlaps(Ball* a, Ball* b)`: `pyth` of the componentwise center
difference, compared strictly against the sum of the radii.  The C function
reads both balls and writes neither; correspondingly the model is a plain
predicate on the two ball values. -/
noncomputable def overlaps (a b : Ball) : Prop :=
  pyth (a.pos.x - b.pos.x) (a.pos.y - b.pos.y) < ((a.radius + b.radius : ℤ) : ℝ)

/-- `bounce(Ball* a, Ball* b)`: equal-mass elastic collision response.
Mutates only the two `dir` fields; modelled as returning the pair of
updated balls. -/
noncomputable def bounce (a b : Ball) : Ball × Ball :=
  let n : vec2 := norm ⟨b.pos.x - a.pos.x, b.pos.y - a.pos.y⟩
  let scalar_product : ℝ := dot a.dir n - dot b.dir n
  ({ a with dir := ⟨a.dir.x - scalar_product * n.x, a.dir.y - scalar_product * n.y⟩ },
   { b with dir := ⟨b.dir.x + scalar_product * n.x, b.dir.y + scalar_product * n.y⟩ })

/-- `bounceWall(Ball* a)`: reflect a ball off the arena walls.  The four
edge coordinates are computed up front from the incoming ball, exactly as
in the C function; the horizontal block runs first, then the vertical
block on its result. -/
noncomputable def bounceWall (a : Ball) : Ball :=
  let left : ℝ := a.pos.x - a.radius
  let right : ℝ := a.pos.x + a.radius
  let up : ℝ := a.pos.y - a.radius
  let down : ℝ := a.pos.y + a.radius
  let a₁ : Ball :=
    if left < 0 ∨ right > SCREEN_WIDTH then
      let dx : ℝ := a.dir.x * (-1)
      { a with dir := ⟨dx, a.dir.y⟩,
               pos := ⟨if dx > 0 then (a.radius : ℝ) + 1 else SCREEN_WIDTH - a.radius - 1,
                       a.pos.y⟩ }
    else a
  if up < 0 ∨ down > SCREEN_HEIGHT then
    let dy : ℝ := a₁.dir.y * (-1)
    { a₁ with dir := ⟨a₁.dir.x, dy⟩,
              pos := ⟨a₁.pos.x,
                      if dy > 0 then (a.radius : ℝ) + 1 else SCREEN_HEIGHT - a.radius - 1⟩ }
  else a₁

/-- Helper for evaluating square roots of perfect squares. -/
theorem sqrt_eval {x r : ℝ} (hr : 0 ≤ r) (h : r ^ 2 = x) : Real.sqrt x = r := by
  subst h; exact Real.sqrt_sq hr

/-- The magnitude vanishes exactly on the zero vector. -/
theorem magnitute_eq_zero_iff (v : vec2) : magnitute v = 0 ↔ v.x = 0 ∧ v.y = 0 := by
  unfold magnitute
  rw [show v.x ^ 2 + v.y ^ 2 = v.x * v.x + v.y * v.y by ring, Real.sqrt_eq_zero']
  constructor
  · intro h
    constructor <;> nlinarith [sq_nonneg v.x, sq_nonneg v.y, mul_self_nonneg v.x,
      mul_self_nonneg v.y]
  · rintro ⟨hx, hy⟩
    rw [hx, hy]; norm_num

/-- When the magnitude is nonzero, the normalized vector has unit
magnitude. -/
theorem magnitute_norm (v : vec2) (h : magnitute v ≠ 0) : magnitute (norm v) = 1 := by
  have hs : 0 ≤ v.x ^ 2 + v.y ^ 2 := by positivity
  have hm : magnitute v = Real.sqrt (v.x ^ 2 + v.y ^ 2) := rfl
  have hmsq : magnitute v ^ 2 = v.x ^ 2 + v.y ^ 2 := by
    rw [hm]; exact Real.sq_sqrt hs
  have hs0 : v.x ^ 2 + v.y ^ 2 ≠ 0 := by
    intro h0
    apply h
    rw [hm, h0, Real.sqrt_zero]
  unfold magnitute norm
  have : (v.x / magnitute v) ^ 2 + (v.y / magnitute v) ^ 2 = 1 := by
    field_simp
    rw [hmsq]
  rw [this, Real.sqrt_one]

/-- The squared components of a normalized nonzero vector sum to 1. -/
theorem norm_sq_sum (v : vec2) (h : ¬ (v.x = 0 ∧ v.y = 0)) :
    (norm v).x ^ 2 + (norm v).y ^ 2 = 1 := by
  have hm : magnitute v ≠ 0 := fun h0 => h ((magnitute_eq_zero_iff v).mp h0)
  have hs : 0 ≤ v.x ^ 2 + v.y ^ 2 := by positivity
  have hmsq : magnitute v ^ 2 = v.x ^ 2 + v.y ^ 2 := Real.sq_sqrt hs
  unfold norm
  field_simp
  rw [hmsq]

/-- **C1.** For every pair of balls with distinct centers, `bounce`
conserves the pair's total momentum: the componentwise sum of the two
velocity vectors after the call equals the sum before the call. -/
theorem bounce_conserves_momentum (a b : Ball) (hab : a.pos ≠ b.pos) :
    (bounce a b).1.dir.x + (bounce a b).2.dir.x = a.dir.x + b.dir.x ∧
    (bounce a b).1.dir.y + (bounce a b).2.dir.y = a.dir.y + b.dir.y := by
  unfold bounce
  constructor <;> ring

/-- Witness for C1 at a concrete pair of balls with distinct centers. -/
theorem bounce_conserves_momentum_witness :
    (⟨5, ⟨0, 0⟩, ⟨1, 0⟩⟩ : Ball).pos ≠ (⟨5, ⟨8, 0⟩, ⟨-1, 0⟩⟩ : Ball).pos ∧
    ((bounce ⟨5, ⟨0, 0⟩, ⟨1, 0⟩⟩ ⟨5, ⟨8, 0⟩, ⟨-1, 0⟩⟩).1.dir.x
        + (bounce ⟨5, ⟨0, 0⟩, ⟨1, 0⟩⟩ ⟨5, ⟨8, 0⟩, ⟨-1, 0⟩⟩).2.dir.x
        = (⟨5, ⟨0, 0⟩, ⟨1, 0⟩⟩ : Ball).dir.x + (⟨5, ⟨8, 0⟩, ⟨-1, 0⟩⟩ : Ball).dir.x ∧
      (bounce ⟨5, ⟨0, 0⟩, ⟨1, 0⟩⟩ ⟨5, ⟨8, 0⟩, ⟨-1, 0⟩⟩).1.dir.y
        + (bounce ⟨5, ⟨0, 0⟩, ⟨1, 0⟩⟩ ⟨5, ⟨8, 0⟩, ⟨-1, 0⟩⟩).2.dir.y
        = (⟨5, ⟨0, 0⟩, ⟨1, 0⟩⟩ : Ball).dir.y + (⟨5, ⟨8, 0⟩, ⟨-1, 0⟩⟩ : Ball).dir.y) := by
  refine ⟨?_, bounce_conserves_momentum _ _ ?_⟩ <;>
    · intro h
      have := congrArg vec2.x h
      norm_num at this

/-- **C7.** `bounce` changes only the two velocity vectors: both balls'
positions and radii are unchanged. -/
theorem bounce_preserves_pos_radius (a b : Ball) (hab : a.pos ≠ b.pos) :
    (bounce a b).1.pos = a.pos ∧ (bounce a b).1.radius = a.radius ∧
    (bounce a b).2.pos = b.pos ∧ (bounce a b).2.radius = b.radius := by
  exact ⟨rfl, rfl, rfl, rfl⟩

/-- Witness for C7 at a concrete pair of balls with distinct centers. -/
theorem bounce_preserves_pos_radius_witness :
    (⟨3, ⟨10, 20⟩, ⟨2, 2⟩⟩ : Ball).pos ≠ (⟨3, ⟨14, 20⟩, ⟨0, 0⟩⟩ : Ball).pos ∧
    ((bounce ⟨3, ⟨10, 20⟩, ⟨2, 2⟩⟩ ⟨3, ⟨14, 20⟩, ⟨0, 0⟩⟩).1.pos
        = (⟨3, ⟨10, 20⟩, ⟨2, 2⟩⟩ : Ball).pos ∧
      (bounce ⟨3, ⟨10, 20⟩, ⟨2, 2⟩⟩ ⟨3, ⟨14, 20⟩, ⟨0, 0⟩⟩).1.radius
        = (⟨3, ⟨10, 20⟩, ⟨2, 2⟩⟩ : Ball).radius ∧
      (bounce ⟨3, ⟨10, 20⟩, ⟨2, 2⟩⟩ ⟨3, ⟨14, 20⟩, ⟨0, 0⟩⟩).2.pos
        = (⟨3, ⟨14, 20⟩, ⟨0, 0⟩⟩ : Ball).pos ∧
      (bounce ⟨3, ⟨10, 20⟩, ⟨2, 2⟩⟩ ⟨3, ⟨14, 20⟩, ⟨0, 0⟩⟩).2.radius
        = (⟨3, ⟨14, 20⟩, ⟨0, 0⟩⟩ : Ball).radius) := by
  refine ⟨?_, bounce_preserves_pos_radius _ _ ?_⟩ <;>
    · intro h
      have := congrArg vec2.x h
      norm_num at this

/-- **C8.** `norm` divides both components by the magnitude; the division
is by a nonzero number exactly when the magnitude is nonzero, which holds
exactly when the vector is nonzero; the vector that `bounce` normalizes is
zero exactly when the two centers coincide, so the resolver's call to
`norm` divides by a nonzero magnitude exactly under the precondition that
the two centers differ. -/
theorem norm_well_defined :
    (∀ v : vec2, magnitute v ≠ 0 →
      (norm v).x = v.x / magnitute v ∧ (norm v).y = v.y / magnitute v ∧
      magnitute (norm v) = 1) ∧
    (∀ v : vec2, magnitute v = 0 ↔ v.x = 0 ∧ v.y = 0) ∧
    (∀ a b : Ball, magnitute ⟨b.pos.x - a.pos.x, b.pos.y - a.pos.y⟩ = 0 ↔ a.pos = b.pos) := by
  refine ⟨fun v hv => ⟨rfl, rfl, magnitute_norm v hv⟩, magnitute_eq_zero_iff, fun a b => ?_⟩
  rw [magnitute_eq_zero_iff]
  obtain ⟨ax, ay⟩ := a.pos
  obtain ⟨bx, by0⟩ := b.pos
  simp only [vec2.mk.injEq]
  constructor
  · rintro ⟨h1, h2⟩
    constructor <;> linarith
  · rintro ⟨h1, h2⟩
    constructor <;> linarith

/-- Witness for C8: the branch with the nonzero-magnitude hypothesis,
applied to the vector (3, 4) of magnitude 5. -/
theorem norm_well_defined_witness :
    magnitute ⟨3, 4⟩ ≠ 0 ∧
    ((norm ⟨3, 4⟩).x = (3 : ℝ) / magnitute ⟨3, 4⟩ ∧
     (norm ⟨3, 4⟩).y = (4 : ℝ) / magnitute ⟨3, 4⟩ ∧
     magnitute (norm ⟨3, 4⟩) = 1) := by
  have h5 : magnitute ⟨3, 4⟩ = 5 := sqrt_eval (by norm_num) (by norm_num)
  exact ⟨by rw [h5]; norm_num, norm_well_defined.1 ⟨3, 4⟩ (by rw [h5]; norm_num)⟩

/-- **C6.** `overlaps a b` holds iff the Euclidean distance between the two
centers is strictly less than the sum of the radii; distance exactly equal
to the sum of the radii is not an overlap; and the test is symmetric in the
two balls.  (The model of `overlaps` is a pure predicate of the two ball
values, as the C function reads both balls and mutates neither.) -/
theorem overlaps_spec :
    ∀ a b : Ball,
      (overlaps a b ↔
        Real.sqrt ((a.pos.x - b.pos.x) ^ 2 + (a.pos.y - b.pos.y) ^ 2)
          < (a.radius : ℝ) + (b.radius : ℝ)) ∧
      (Real.sqrt ((a.pos.x - b.pos.x) ^ 2 + (a.pos.y - b.pos.y) ^ 2)
          = (a.radius : ℝ) + (b.radius : ℝ) → ¬ overlaps a b) ∧
      (overlaps a b ↔ overlaps b a) := by
  intro a b
  have hcast : ((a.radius + b.radius : ℤ) : ℝ) = (a.radius : ℝ) + (b.radius : ℝ) := by
    push_cast; ring
  have h1 : overlaps a b ↔
      Real.sqrt ((a.pos.x - b.pos.x) ^ 2 + (a.pos.y - b.pos.y) ^ 2)
        < (a.radius : ℝ) + (b.radius : ℝ) := by
    unfold overlaps pyth
    rw [hcast]
  refine ⟨h1, fun heq hover => ?_, ?_⟩
  · rw [h1, heq] at hover
    exact lt_irrefl _ hover
  · unfold overlaps pyth
    rw [show (a.pos.x - b.pos.x) ^ 2 + (a.pos.y - b.pos.y) ^ 2
          = (b.pos.x - a.pos.x) ^ 2 + (b.pos.y - a.pos.y) ^ 2 by ring,
        show ((a.radius + b.radius : ℤ) : ℝ) = ((b.radius + a.radius : ℤ) : ℝ) by
          push_cast; ring]

/-- Witness for C6: the symmetry conjunct at a concrete pair of balls. -/
theorem overlaps_spec_witness :
    overlaps ⟨5, ⟨0, 0⟩, ⟨1, 0⟩⟩ ⟨5, ⟨8, 0⟩, ⟨-1, 0⟩⟩ ↔
    overlaps ⟨5, ⟨8, 0⟩, ⟨-1, 0⟩⟩ ⟨5, ⟨0, 0⟩, ⟨1, 0⟩⟩ :=
  (overlaps_spec _ _).2.2

/-- **C5.** On the head-on pair a = ((0,0), vel (1,0), r 5) and
b = ((8,0), vel (-1,0), r 5), `bounce` swaps the velocities along the
normal: a leaves with (-1,0), b with (1,0), and the pair's total kinetic
energy is conserved. -/
theorem bounce_head_on_swaps :
    (bounce ⟨5, ⟨0, 0⟩, ⟨1, 0⟩⟩ ⟨5, ⟨8, 0⟩, ⟨-1, 0⟩⟩).1.dir = ⟨-1, 0⟩ ∧
    (bounce ⟨5, ⟨0, 0⟩, ⟨1, 0⟩⟩ ⟨5, ⟨8, 0⟩, ⟨-1, 0⟩⟩).2.dir = ⟨1, 0⟩ ∧
    ((bounce ⟨5, ⟨0, 0⟩, ⟨1, 0⟩⟩ ⟨5, ⟨8, 0⟩, ⟨-1, 0⟩⟩).1.dir.x ^ 2
      + (bounce ⟨5, ⟨0, 0⟩, ⟨1, 0⟩⟩ ⟨5, ⟨8, 0⟩, ⟨-1, 0⟩⟩).1.dir.y ^ 2)
      + ((bounce ⟨5, ⟨0, 0⟩, ⟨1, 0⟩⟩ ⟨5, ⟨8, 0⟩, ⟨-1, 0⟩⟩).2.dir.x ^ 2
      + (bounce ⟨5, ⟨0, 0⟩, ⟨1, 0⟩⟩ ⟨5, ⟨8, 0⟩, ⟨-1, 0⟩⟩).2.dir.y ^ 2)
      = ((1 : ℝ) ^ 2 + 0 ^ 2) + ((-1 : ℝ) ^ 2 + 0 ^ 2) := by
  have h8 : Real.sqrt (((8 : ℝ) - 0) ^ 2 + ((0 : ℝ) - 0) ^ 2) = 8 :=
    sqrt_eval (by norm_num) (by norm_num)
  refine ⟨?_, ?_, ?_⟩ <;>
    · simp only [bounce, norm, magnitute, dot]
      rw [h8]
      norm_num [vec2.mk.injEq]

/-- On an x-axis boundary crossing, `bounceWall` negates the x velocity and
clamps the x position according to the sign of the new velocity. -/
theorem bounceWall_x_cross (a : Ball)
    (hx : a.pos.x - a.radius < 0 ∨ a.pos.x + a.radius > SCREEN_WIDTH) :
    (bounceWall a).dir.x = -a.dir.x ∧
    (bounceWall a).pos.x =
      if -a.dir.x > 0 then (a.radius : ℝ) + 1 else SCREEN_WIDTH - a.radius - 1 := by
  simp only [bounceWall]
  rw [if_pos hx]
  by_cases hy : a.pos.y - a.radius < 0 ∨ a.pos.y + a.radius > SCREEN_HEIGHT
  · rw [if_pos hy]
    simp only [mul_neg_one]
    exact ⟨by trivial, by trivial⟩
  · rw [if_neg hy]
    simp only [mul_neg_one]
    exact ⟨by trivial, by trivial⟩

/-- Without an x-axis boundary crossing, `bounceWall` leaves the x velocity
and x position untouched. -/
theorem bounceWall_x_clear (a : Ball)
    (hx : ¬ (a.pos.x - a.radius < 0 ∨ a.pos.x + a.radius > SCREEN_WIDTH)) :
    (bounceWall a).dir.x = a.dir.x ∧ (bounceWall a).pos.x = a.pos.x := by
  simp only [bounceWall]
  rw [if_neg hx]
  by_cases hy : a.pos.y - a.radius < 0 ∨ a.pos.y + a.radius > SCREEN_HEIGHT
  · rw [if_pos hy]
    exact ⟨rfl, rfl⟩
  · rw [if_neg hy]
    exact ⟨rfl, rfl⟩

/-- On a y-axis boundary crossing, `bounceWall` negates the y velocity and
clamps the y position according to the sign of the new velocity. -/
theorem bounceWall_y_cross (a : Ball)
    (hy : a.pos.y - a.radius < 0 ∨ a.pos.y + a.radius > SCREEN_HEIGHT) :
    (bounceWall a).dir.y = -a.dir.y ∧
    (bounceWall a).pos.y =
      if -a.dir.y > 0 then (a.radius : ℝ) + 1 else SCREEN_HEIGHT - a.radius - 1 := by
  simp only [bounceWall]
  rw [if_pos hy]
  by_cases hx : a.pos.x - a.radius < 0 ∨ a.pos.x + a.radius > SCREEN_WIDTH
  · rw [if_pos hx]
    simp only [mul_neg_one]
    exact ⟨by trivial, by trivial⟩
  · rw [if_neg hx]
    simp only [mul_neg_one]
    exact ⟨by trivial, by trivial⟩

/-- Without a y-axis boundary crossing, `bounceWall` leaves the y velocity
and y position untouched. -/
theorem bounceWall_y_clear (a : Ball)
    (hy : ¬ (a.pos.y - a.radius < 0 ∨ a.pos.y + a.radius > SCREEN_HEIGHT)) :
    (bounceWall a).dir.y = a.dir.y ∧ (bounceWall a).pos.y = a.pos.y := by
  simp only [bounceWall]
  rw [if_neg hy]
  by_cases hx : a.pos.x - a.radius < 0 ∨ a.pos.x + a.radius > SCREEN_WIDTH
  · rw [if_pos hx]
    exact ⟨rfl, rfl⟩
  · rw [if_neg hx]
    exact ⟨rfl, rfl⟩

/-- Componentwise characterisation of `vec2` equality. -/
theorem vec2_eq_iff (v w : vec2) : v = w ↔ v.x = w.x ∧ v.y = w.y := by
  obtain ⟨vx, vy⟩ := v
  obtain ⟨wx, wy⟩ := w
  simp [vec2.mk.injEq]

/-- Evaluation of `bounceWall` on the spec's concrete example: x = 1198,
radius 5, velocity x = +3 in the width-1200 arena. -/
theorem bounceWall_example :
    bounceWall ⟨5, ⟨1198, 600⟩, ⟨3, 0⟩⟩ = ⟨5, ⟨1194, 600⟩, ⟨-3, 0⟩⟩ := by
  norm_num [bounceWall, SCREEN_WIDTH, SCREEN_HEIGHT, Ball.mk.injEq, vec2.mk.injEq]

/-- **C3.** When a body's edge crosses an arena boundary on an axis,
`bounceWall` negates that axis's velocity component and clamps the position
on that axis by the sign of the new velocity (positive to `radius + 1`,
otherwise to `extent - radius - 1`); an axis with no crossing is left
untouched, so the two axes are handled independently; and on the concrete
example (x = 1198, radius 5, velocity x = +3, width 1200) it produces
velocity x = -3 and position x = 1194. -/
theorem bounceWall_reflects_and_clamps :
    ∀ a : Ball,
      ((a.pos.x - a.radius < 0 ∨ a.pos.x + a.radius > SCREEN_WIDTH) →
        (bounceWall a).dir.x = -a.dir.x ∧
        (bounceWall a).pos.x =
          if -a.dir.x > 0 then (a.radius : ℝ) + 1 else SCREEN_WIDTH - a.radius - 1) ∧
      ((a.pos.y - a.radius < 0 ∨ a.pos.y + a.radius > SCREEN_HEIGHT) →
        (bounceWall a).dir.y = -a.dir.y ∧
        (bounceWall a).pos.y =
          if -a.dir.y > 0 then (a.radius : ℝ) + 1 else SCREEN_HEIGHT - a.radius - 1) ∧
      (¬ (a.pos.x - a.radius < 0 ∨ a.pos.x + a.radius > SCREEN_WIDTH) →
        (bounceWall a).dir.x = a.dir.x ∧ (bounceWall a).pos.x = a.pos.x) ∧
      (¬ (a.pos.y - a.radius < 0 ∨ a.pos.y + a.radius > SCREEN_HEIGHT) →
        (bounceWall a).dir.y = a.dir.y ∧ (bounceWall a).pos.y = a.pos.y) ∧
      bounceWall ⟨5, ⟨1198, 600⟩, ⟨3, 0⟩⟩ = ⟨5, ⟨1194, 600⟩, ⟨-3, 0⟩⟩ :=
  fun a => ⟨bounceWall_x_cross a, bounceWall_y_cross a, bounceWall_x_clear a,
    bounceWall_y_clear a, bounceWall_example⟩

/-- Witness for C3: the x-crossing branch applied to the spec's concrete
example ball. -/
theorem bounceWall_reflects_and_clamps_witness :
    ((⟨5, ⟨1198, 600⟩, ⟨3, 0⟩⟩ : Ball).pos.x - (⟨5, ⟨1198, 600⟩, ⟨3, 0⟩⟩ : Ball).radius < 0 ∨
     (⟨5, ⟨1198, 600⟩, ⟨3, 0⟩⟩ : Ball).pos.x + (⟨5, ⟨1198, 600⟩, ⟨3, 0⟩⟩ : Ball).radius
       > SCREEN_WIDTH) ∧
    ((bounceWall ⟨5, ⟨1198, 600⟩, ⟨3, 0⟩⟩).dir.x = -(⟨5, ⟨1198, 600⟩, ⟨3, 0⟩⟩ : Ball).dir.x ∧
     (bounceWall ⟨5, ⟨1198, 600⟩, ⟨3, 0⟩⟩).pos.x =
       if -(⟨5, ⟨1198, 600⟩, ⟨3, 0⟩⟩ : Ball).dir.x > 0
       then ((⟨5, ⟨1198, 600⟩, ⟨3, 0⟩⟩ : Ball).radius : ℝ) + 1
       else SCREEN_WIDTH - (⟨5, ⟨1198, 600⟩, ⟨3, 0⟩⟩ : Ball).radius - 1) :=
  ⟨by norm_num [SCREEN_WIDTH],
   (bounceWall_reflects_and_clamps ⟨5, ⟨1198, 600⟩, ⟨3, 0⟩⟩).1 (by norm_num [SCREEN_WIDTH])⟩

/-- **C10.** When a body crosses a boundary on an axis while its velocity
component there is zero, `bounceWall` leaves the component at zero and
clamps the position on that axis to the far boundary `extent - radius - 1`,
whichever boundary was crossed, because the negated zero velocity fails the
strictly-positive test selecting the near-boundary clamp. -/
theorem bounceWall_zero_velocity (a : Ball) :
    (a.dir.x = 0 → (a.pos.x - a.radius < 0 ∨ a.pos.x + a.radius > SCREEN_WIDTH) →
      (bounceWall a).dir.x = 0 ∧ (bounceWall a).pos.x = SCREEN_WIDTH - a.radius - 1) ∧
    (a.dir.y = 0 → (a.pos.y - a.radius < 0 ∨ a.pos.y + a.radius > SCREEN_HEIGHT) →
      (bounceWall a).dir.y = 0 ∧ (bounceWall a).pos.y = SCREEN_HEIGHT - a.radius - 1) := by
  constructor
  · intro h0 hx
    obtain ⟨hd, hp⟩ := bounceWall_x_cross a hx
    rw [h0] at hd hp
    norm_num at hd hp
    exact ⟨hd, hp⟩
  · intro h0 hy
    obtain ⟨hd, hp⟩ := bounceWall_y_cross a hy
    rw [h0] at hd hp
    norm_num at hd hp
    exact ⟨hd, hp⟩

/-- Witness for C10: a ball crossing the near (left) wall with zero x
velocity is clamped to the far boundary 1200 - radius - 1. -/
theorem bounceWall_zero_velocity_witness :
    (⟨5, ⟨2, 600⟩, ⟨0, 0⟩⟩ : Ball).dir.x = 0 ∧
    ((⟨5, ⟨2, 600⟩, ⟨0, 0⟩⟩ : Ball).pos.x - (⟨5, ⟨2, 600⟩, ⟨0, 0⟩⟩ : Ball).radius < 0 ∨
     (⟨5, ⟨2, 600⟩, ⟨0, 0⟩⟩ : Ball).pos.x + (⟨5, ⟨2, 600⟩, ⟨0, 0⟩⟩ : Ball).radius
       > SCREEN_WIDTH) ∧
    ((bounceWall ⟨5, ⟨2, 600⟩, ⟨0, 0⟩⟩).dir.x = 0 ∧
     (bounceWall ⟨5, ⟨2, 600⟩, ⟨0, 0⟩⟩).pos.x =
       SCREEN_WIDTH - (⟨5, ⟨2, 600⟩, ⟨0, 0⟩⟩ : Ball).radius - 1) :=
  ⟨rfl, by norm_num [SCREEN_WIDTH],
   (bounceWall_zero_velocity ⟨5, ⟨2, 600⟩, ⟨0, 0⟩⟩).1 rfl (by norm_num [SCREEN_WIDTH])⟩

/-- **C9.** For balls with distinct centers, applying `bounce` twice in
succession (positions unchanged in between, which `bounce` guarantees)
restores both velocity vectors exactly: the resolver is an involution on
the pair's velocities at fixed positions. -/
theorem bounce_involution (a b : Ball) (hab : a.pos ≠ b.pos) :
    (bounce (bounce a b).1 (bounce a b).2).1.dir = a.dir ∧
    (bounce (bounce a b).1 (bounce a b).2).2.dir = b.dir := by
  have hd : ¬ ((b.pos.x - a.pos.x) = 0 ∧ (b.pos.y - a.pos.y) = 0) := by
    rintro ⟨h1, h2⟩
    apply hab
    rw [vec2_eq_iff]
    constructor <;> linarith
  have hnn := norm_sq_sum ⟨b.pos.x - a.pos.x, b.pos.y - a.pos.y⟩ hd
  constructor
  · rw [vec2_eq_iff]
    simp only [bounce, dot]
    set nx := (norm ⟨b.pos.x - a.pos.x, b.pos.y - a.pos.y⟩).x with hnx
    set ny := (norm ⟨b.pos.x - a.pos.x, b.pos.y - a.pos.y⟩).y with hny
    constructor
    · linear_combination (2 * ((a.dir.x * nx + a.dir.y * ny)
        - (b.dir.x * nx + b.dir.y * ny)) * nx) * hnn
    · linear_combination (2 * ((a.dir.x * nx + a.dir.y * ny)
        - (b.dir.x * nx + b.dir.y * ny)) * ny) * hnn
  · rw [vec2_eq_iff]
    simp only [bounce, dot]
    set nx := (norm ⟨b.pos.x - a.pos.x, b.pos.y - a.pos.y⟩).x with hnx
    set ny := (norm ⟨b.pos.x - a.pos.x, b.pos.y - a.pos.y⟩).y with hny
    constructor
    · linear_combination (-(2 * ((a.dir.x * nx + a.dir.y * ny)
        - (b.dir.x * nx + b.dir.y * ny)) * nx)) * hnn
    · linear_combination (-(2 * ((a.dir.x * nx + a.dir.y * ny)
        - (b.dir.x * nx + b.dir.y * ny)) * ny)) * hnn

/-- Witness for C9 at a concrete pair of balls with distinct centers. -/
theorem bounce_involution_witness :
    (⟨5, ⟨0, 0⟩, ⟨1, 0⟩⟩ : Ball).pos ≠ (⟨5, ⟨8, 0⟩, ⟨-1, 0⟩⟩ : Ball).pos ∧
    ((bounce (bounce ⟨5, ⟨0, 0⟩, ⟨1, 0⟩⟩ ⟨5, ⟨8, 0⟩, ⟨-1, 0⟩⟩).1
        (bounce ⟨5, ⟨0, 0⟩, ⟨1, 0⟩⟩ ⟨5, ⟨8, 0⟩, ⟨-1, 0⟩⟩).2).1.dir
        = (⟨5, ⟨0, 0⟩, ⟨1, 0⟩⟩ : Ball).dir ∧
     (bounce (bounce ⟨5, ⟨0, 0⟩, ⟨1, 0⟩⟩ ⟨5, ⟨8, 0⟩, ⟨-1, 0⟩⟩).1
        (bounce ⟨5, ⟨0, 0⟩, ⟨1, 0⟩⟩ ⟨5, ⟨8, 0⟩, ⟨-1, 0⟩⟩).2).2.dir
        = (⟨5, ⟨8, 0⟩, ⟨-1, 0⟩⟩ : Ball).dir) := by
  refine ⟨?_, bounce_involution _ _ ?_⟩ <;>
    · intro h
      have := congrArg vec2.x h
      norm_num at this

/-- Reading `balls[i]` from the collection (out-of-range reads never occur
in the program; the default ball only makes the lookup total). -/
def nth (s : List Ball) (i : Nat) : Ball := s.getD i ⟨0, ⟨0, 0⟩, ⟨0, 0⟩⟩

/-- The inner `for (j ...)` loop of `renderBalls`, scanning for a collision
partner of `a = balls[i]` over the remaining candidate indices in order:
`j == i` is skipped (the `continue`), the first `j` whose ball overlaps `a`
is returned (there the C loop calls `bounce` and `break`s), and the loop
falls through to `none`. -/
noncomputable def scanList (a : Ball) (s : List Ball) (i : Nat) : List Nat → Option Nat
  | [] => none
  | j :: js =>
    if j = i then scanList a s i js
    else if overlaps a (nth s j) then some j
    else scanList a s i js

/-- The whole inner loop for ball `i`: candidates are `j = 0 … amnt-1` in
index order (`amnt` is the collection length). -/
noncomputable def scan (s : List Ball) (i : Nat) : Option Nat :=
  scanList (nth s i) s i (List.range s.length)

/-- One iteration of the outer loop of `renderBalls` for index `i`: resolve
the first detected overlap if any (`bounce` mutates `balls[i]` and
`balls[j]` in place), draw ball `i` (no effect on simulation state), then
`moveBall` and `bounceWall` on ball `i`. -/
noncomputable def stepBall (s : List Ball) (i : Nat) : List Ball :=
  let s₁ : List Ball :=
    match scan s i with
    | some j => (s.set i (bounce (nth s i) (nth s j)).1).set j (bounce (nth s i) (nth s j)).2
    | none => s
  s₁.set i (bounceWall (moveBall (nth s₁ i)))

/-- `renderBalls(int amnt, Ball* balls[])`: the outer loop over
`i = 0 … amnt-1`, with the collection mutated in place as it goes. -/
noncomputable def renderBalls (s : List Ball) : List Ball :=
  (List.range s.length).foldl stepBall s

/-- Instrumented outer-loop iteration: also counts whether this iteration
invoked the collision resolver (the C `bounce` call). -/
noncomputable def stepCount (p : List Ball × Nat) (i : Nat) : List Ball × Nat :=
  (stepBall p.1 i,
   p.2 + match scan p.1 i with | some _ => 1 | none => 0)

/-- The number of collision-resolver invocations during one `renderBalls`
pass over the collection. -/
noncomputable def bounceCount (s : List Ball) : Nat :=
  ((List.range s.length).foldl stepCount (s, 0)).2

/-- No two distinct bodies of the collection overlap. -/
def pairwiseNonOverlap (s : List Ball) : Prop :=
  ∀ i j, i < s.length → j < s.length → i ≠ j → ¬ overlaps (nth s i) (nth s j)

/-- The collection state after the first `k` iterations of the outer loop
of `renderBalls`. -/
noncomputable def stepsUpTo (s : List Ball) (k : Nat) : List Ball :=
  (List.range k).foldl stepBall s

/-- The scan loop returns `none` iff every candidate is the scanned index
itself or a non-overlapping ball. -/
theorem scanList_eq_none_iff (a : Ball) (s : List Ball) (i : Nat) (l : List Nat) :
    scanList a s i l = none ↔ ∀ j ∈ l, j = i ∨ ¬ overlaps a (nth s j) := by
  induction l with
  | nil => simp [scanList]
  | cons j js ih =>
    by_cases hj : j = i
    · simp [scanList, hj, ih]
    · by_cases ho : overlaps a (nth s j)
      · simp [scanList, hj, ho]
      · simp [scanList, hj, ho, ih]

/-- When the scan loop returns an index, the candidate list splits at that
index: every earlier candidate was skipped or non-overlapping, and the
returned candidate is a genuine overlap. -/
theorem scanList_eq_some (a : Ball) (s : List Ball) (i : Nat) (l : List Nat) (j : Nat)
    (h : scanList a s i l = some j) :
    ∃ l₁ l₂, l = l₁ ++ j :: l₂ ∧ (∀ k ∈ l₁, k = i ∨ ¬ overlaps a (nth s k)) ∧
      j ≠ i ∧ overlaps a (nth s j) := by
  induction l with
  | nil => simp [scanList] at h
  | cons m ms ih =>
    by_cases hm : m = i
    · rw [scanList, if_pos hm] at h
      obtain ⟨l₁, l₂, heq, hskip, hji, hov⟩ := ih h
      exact ⟨m :: l₁, l₂, by rw [heq]; rfl,
        fun k hk => by
          rcases List.mem_cons.mp hk with hk | hk
          · exact Or.inl (hk ▸ hm)
          · exact hskip k hk,
        hji, hov⟩
    · by_cases ho : overlaps a (nth s m)
      · rw [scanList, if_neg hm, if_pos ho] at h
        obtain rfl : m = j := Option.some.inj h
        exact ⟨[], ms, rfl, by simp, hm, ho⟩
      · rw [scanList, if_neg hm, if_neg ho] at h
        obtain ⟨l₁, l₂, heq, hskip, hji, hov⟩ := ih h
        exact ⟨m :: l₁, l₂, by rw [heq]; rfl,
          fun k hk => by
            rcases List.mem_cons.mp hk with hk | hk
            · exact Or.inr (hk ▸ ho)
            · exact hskip k hk,
          hji, hov⟩

/-- A split of `range n` at an element recovers that element as the length
of the left part, and the left part holds exactly the smaller numbers. -/
theorem range_split {n j : Nat} {l₁ l₂ : List Nat}
    (h : List.range n = l₁ ++ j :: l₂) :
    j = l₁.length ∧ j < n ∧ ∀ k, k < j → k ∈ l₁ := by
  have hlen : n = l₁.length + (l₂.length + 1) := by
    have := congrArg List.length h
    simpa using this
  have hj : j = l₁.length := by
    have h1 : (List.range n)[l₁.length]? = some j := by
      rw [h, List.getElem?_append_right (Nat.le_refl _)]
      simp
    have h2 : (List.range n)[l₁.length]? = some l₁.length :=
      List.getElem?_range (by omega)
    rw [h1] at h2
    exact Option.some.inj h2
  refine ⟨hj, by omega, fun k hk => ?_⟩
  have h1 : (List.range n)[k]? = some k := List.getElem?_range (by omega)
  rw [h, List.getElem?_append_left (by omega : k < l₁.length)] at h1
  exact List.mem_iff_getElem?.mpr ⟨k, h1⟩

/-- Reading back the ball written by a `set` at a live index, past an
unrelated later `set`. -/
theorem nth_set_set (s : List Ball) (i j : Nat) (u v : Ball)
    (hi : i < s.length) (hij : j ≠ i) :
    nth ((s.set i u).set j v) i = u := by
  unfold nth
  rw [List.getD_eq_getElem?_getD, List.getElem?_set_ne hij,
    List.getElem?_set_self (by simpa using hi)]
  rfl

/-- **C4.** For each body `i`, the scan visits the other indices in
collection order and resolves at most one pair: a returned partner `j` is a
genuine overlap, distinct from `i`, within bounds, and no smaller candidate
other than `i` overlaps; a `none` scan means no partner overlaps at all;
and the iteration for `i` is exactly: apply `bounce` to the first
overlapping pair (if any), then integrate ball `i`, then wall-reflect it,
in that order. -/
theorem renderBalls_scan_order (s : List Ball) (i : Nat) (hi : i < s.length) :
    (∀ j, scan s i = some j →
      j < s.length ∧ j ≠ i ∧ overlaps (nth s i) (nth s j) ∧
      ∀ k, k < j → k ≠ i → ¬ overlaps (nth s i) (nth s k)) ∧
    (scan s i = none ↔ ∀ j, j < s.length → j ≠ i → ¬ overlaps (nth s i) (nth s j)) ∧
    (scan s i = none → stepBall s i = s.set i (bounceWall (moveBall (nth s i)))) ∧
    (∀ j, scan s i = some j →
      stepBall s i =
        ((s.set i (bounce (nth s i) (nth s j)).1).set j (bounce (nth s i) (nth s j)).2).set i
          (bounceWall (moveBall (bounce (nth s i) (nth s j)).1))) := by
  refine ⟨fun j hj => ?_, ?_, fun h => ?_, fun j hj => ?_⟩
  · obtain ⟨l₁, l₂, heq, hskip, hji, hov⟩ := scanList_eq_some _ _ _ _ _ hj
    obtain ⟨hlen, hjn, hsmall⟩ := range_split heq
    refine ⟨hjn, hji, hov, fun k hk hki => ?_⟩
    rcases hskip k (hsmall k hk) with h | h
    · exact absurd h hki
    · exact h
  · rw [scan, scanList_eq_none_iff]
    constructor
    · intro h j hjn hji
      rcases h j (List.mem_range.mpr hjn) with h | h
      · exact absurd h hji
      · exact h
    · intro h j hj
      by_cases hji : j = i
      · exact Or.inl hji
      · exact Or.inr (h j (List.mem_range.mp hj) hji)
  · simp only [stepBall, h]
  · have hji : j ≠ i := by
      obtain ⟨l₁, l₂, heq, hskip, hji, hov⟩ := scanList_eq_some _ _ _ _ _ hj
      exact hji
    simp only [stepBall, hj]
    rw [nth_set_set s i j _ _ hi hji]

/-- Witness for C4: the `none` characterisation on a one-ball collection at
index 0. -/
theorem renderBalls_scan_order_witness :
    (0 : Nat) < ([⟨5, ⟨100, 100⟩, ⟨0, 0⟩⟩] : List Ball).length ∧
    (scan [⟨5, ⟨100, 100⟩, ⟨0, 0⟩⟩] 0 = none ↔
      ∀ j, j < ([⟨5, ⟨100, 100⟩, ⟨0, 0⟩⟩] : List Ball).length → j ≠ 0 →
        ¬ overlaps (nth [⟨5, ⟨100, 100⟩, ⟨0, 0⟩⟩] 0) (nth [⟨5, ⟨100, 100⟩, ⟨0, 0⟩⟩] j)) :=
  ⟨by simp, (renderBalls_scan_order [⟨5, ⟨100, 100⟩, ⟨0, 0⟩⟩] 0 (by simp)).2.1⟩

/-- Reading back a `set` index in bounds. -/
theorem nth_set_self (s : List Ball) (i : Nat) (v : Ball) (hi : i < s.length) :
    nth (s.set i v) i = v := by
  unfold nth
  rw [List.getD_eq_getElem?_getD, List.getElem?_set_self hi]
  rfl

/-- Reading an index untouched by a `set`. -/
theorem nth_set_ne (s : List Ball) (i p : Nat) (v : Ball) (hip : i ≠ p) :
    nth (s.set i v) p = nth s p := by
  unfold nth
  rw [List.getD_eq_getElem?_getD, List.getElem?_set_ne hip, ← List.getD_eq_getElem?_getD]

/-- On a pairwise non-overlapping collection, the scan for any in-range
index finds no partner. -/
theorem scan_none_of_nonoverlap (s : List Ball) (h : pairwiseNonOverlap s)
    (i : Nat) (hi : i < s.length) : scan s i = none := by
  rw [scan, scanList_eq_none_iff]
  intro j hj
  by_cases hji : j = i
  · exact Or.inl hji
  · exact Or.inr (h i j hi (List.mem_range.mp hj) (fun he => hji he.symm))

/-- `stepBall` preserves the collection length. -/
theorem stepBall_length (s : List Ball) (i : Nat) :
    (stepBall s i).length = s.length := by
  rcases h : scan s i with _ | j <;> simp [stepBall, h]

/-- Unfolding one outer-loop iteration off the end of a prefix run. -/
theorem stepsUpTo_succ (s : List Ball) (k : Nat) :
    stepsUpTo s (k + 1) = stepBall (stepsUpTo s k) k := by
  rw [stepsUpTo, List.range_succ, List.foldl_append]
  rfl

/-- Invariant of the outer loop run under intermediate non-overlap: the
counter stays 0 and every processed ball was only integrated and
wall-reflected. -/
theorem renderBalls_prefix_invariant (s : List Ball)
    (h : ∀ k, k < s.length → pairwiseNonOverlap (stepsUpTo s k)) :
    ∀ k, k ≤ s.length →
      ((List.range k).foldl stepCount (s, 0)).1 = stepsUpTo s k ∧
      ((List.range k).foldl stepCount (s, 0)).2 = 0 ∧
      (stepsUpTo s k).length = s.length ∧
      ∀ p, nth (stepsUpTo s k) p =
        if p < k then bounceWall (moveBall (nth s p)) else nth s p := by
  intro k
  induction k with
  | zero => exact fun _ => ⟨rfl, rfl, rfl, fun p => by simp [stepsUpTo]⟩
  | succ m ih =>
    intro hk
    obtain ⟨ih1, ih2, ih3, ih4⟩ := ih (by omega)
    have hm : m < s.length := by omega
    have hpno : pairwiseNonOverlap (stepsUpTo s m) := h m hm
    have hscan : scan (stepsUpTo s m) m = none :=
      scan_none_of_nonoverlap _ hpno m (by rw [ih3]; exact hm)
    have hstep : stepBall (stepsUpTo s m) m
        = (stepsUpTo s m).set m (bounceWall (moveBall (nth (stepsUpTo s m) m))) := by
      simp only [stepBall, hscan]
    have hcsucc : (List.range (m + 1)).foldl stepCount (s, 0)
        = stepCount ((List.range m).foldl stepCount (s, 0)) m := by
      rw [List.range_succ, List.foldl_append]
      rfl
    have hnthm : nth (stepsUpTo s m) m = nth s m := by
      rw [ih4 m]
      simp
    refine ⟨?_, ?_, ?_, ?_⟩
    · rw [hcsucc, stepCount, stepsUpTo_succ, ih1]
    · rw [hcsucc, stepCount]
      simp only [ih1, ih2, hscan]
    · rw [stepsUpTo_succ, stepBall_length, ih3]
    · intro p
      rw [stepsUpTo_succ, hstep, hnthm]
      by_cases hpm : p = m
      · subst hpm
        rw [nth_set_self _ _ _ (by rw [ih3]; exact hm)]
        simp
      · rw [nth_set_ne _ _ _ _ (fun he => hpm he.symm), ih4 p]
        by_cases hpm2 : p < m
        · rw [if_pos hpm2, if_pos (by omega)]
        · rw [if_neg hpm2, if_neg (by omega)]

/-- **C2 (amended).** If no two bodies overlap at the start of the frame
and no two bodies overlap in any of the intermediate states reached as
successive bodies are integrated during the pass, then the whole simulation
step never invokes the collision resolver: every ball is exactly its
integrated-and-wall-reflected start-of-frame self, so no velocity changes
via the resolver.  (The k = 0 instance of the hypothesis is the
start-of-frame non-overlap.) -/
theorem renderBalls_no_overlap_no_bounce (s : List Ball)
    (h : ∀ k, k < s.length → pairwiseNonOverlap (stepsUpTo s k)) :
    bounceCount s = 0 ∧
    renderBalls s = s.map (fun b => bounceWall (moveBall b)) := by
  obtain ⟨h1, h2, h3, h4⟩ := renderBalls_prefix_invariant s h s.length (le_refl _)
  refine ⟨h2, ?_⟩
  have hrb : renderBalls s = stepsUpTo s s.length := rfl
  rw [hrb]
  apply List.ext_getElem
  · rw [h3]
    simp
  · intro p h5 h6
    have hp : p < s.length := by rw [h3] at h5; exact h5
    have hnth := h4 p
    rw [if_pos hp] at hnth
    have e1 : (stepsUpTo s s.length)[p] = nth (stepsUpTo s s.length) p := by
      unfold nth
      rw [List.getD_eq_getElem?_getD, List.getElem?_eq_getElem h5]
      rfl
    rw [e1, hnth, List.getElem_map]
    congr 1
    unfold nth
    rw [List.getD_eq_getElem?_getD, List.getElem?_eq_getElem hp]
    rfl

/-- Witness for C2 (amended) on a one-ball collection, where the
intermediate-non-overlap hypothesis holds vacuously. -/
theorem renderBalls_no_overlap_no_bounce_witness :
    (∀ k, k < ([⟨5, ⟨100, 100⟩, ⟨0, 0⟩⟩] : List Ball).length →
      pairwiseNonOverlap (stepsUpTo [⟨5, ⟨100, 100⟩, ⟨0, 0⟩⟩] k)) ∧
    (bounceCount [⟨5, ⟨100, 100⟩, ⟨0, 0⟩⟩] = 0 ∧
     renderBalls [⟨5, ⟨100, 100⟩, ⟨0, 0⟩⟩]
       = List.map (fun b => bounceWall (moveBall b)) [⟨5, ⟨100, 100⟩, ⟨0, 0⟩⟩]) := by
  have hhyp : ∀ k, k < ([⟨5, ⟨100, 100⟩, ⟨0, 0⟩⟩] : List Ball).length →
      pairwiseNonOverlap (stepsUpTo [⟨5, ⟨100, 100⟩, ⟨0, 0⟩⟩] k) := by
    intro k hk
    have hk0 : k = 0 := by
      simp only [List.length_cons, List.length_nil] at hk
      omega
    subst hk0
    intro i j hi hj hij
    simp only [stepsUpTo, List.range_zero, List.foldl_nil, List.length_cons,
      List.length_nil] at hi hj
    omega
  exact ⟨hhyp, renderBalls_no_overlap_no_bounce _ hhyp⟩

/-- Counterexample to C2 as stated: two balls of radius 5 at x = 20 and
x = 31 (center distance 11 > 10) do not overlap at the start of the frame,
but ball 0 moves by +9 during its iteration, so when ball 1 is scanned the
moved ball 0 is 2 pixels away and the resolver is invoked once within the
same `renderBalls` pass. -/
theorem nonOverlap_but_resolver_invoked :
    pairwiseNonOverlap [⟨5, ⟨20, 600⟩, ⟨9, 0⟩⟩, ⟨5, ⟨31, 600⟩, ⟨0, 0⟩⟩] ∧
    bounceCount [⟨5, ⟨20, 600⟩, ⟨9, 0⟩⟩, ⟨5, ⟨31, 600⟩, ⟨0, 0⟩⟩] = 1 := by
  have hs11 : Real.sqrt (((20 : ℝ) - 31) ^ 2 + ((600 : ℝ) - 600) ^ 2) = 11 :=
    sqrt_eval (by norm_num) (by norm_num)
  have hs11b : Real.sqrt (((31 : ℝ) - 20) ^ 2 + ((600 : ℝ) - 600) ^ 2) = 11 :=
    sqrt_eval (by norm_num) (by norm_num)
  have hs2 : Real.sqrt (((31 : ℝ) - 29) ^ 2 + ((600 : ℝ) - 600) ^ 2) = 2 :=
    sqrt_eval (by norm_num) (by norm_num)
  have hno1 : ¬ overlaps (⟨5, ⟨20, 600⟩, ⟨9, 0⟩⟩ : Ball) (⟨5, ⟨31, 600⟩, ⟨0, 0⟩⟩ : Ball) := by
    simp only [overlaps, pyth]
    rw [hs11]
    push_cast
    norm_num
  have hno2 : ¬ overlaps (⟨5, ⟨31, 600⟩, ⟨0, 0⟩⟩ : Ball) (⟨5, ⟨20, 600⟩, ⟨9, 0⟩⟩ : Ball) := by
    simp only [overlaps, pyth]
    rw [hs11b]
    push_cast
    norm_num
  have hyes : overlaps (⟨5, ⟨31, 600⟩, ⟨0, 0⟩⟩ : Ball) (⟨5, ⟨29, 600⟩, ⟨9, 0⟩⟩ : Ball) := by
    simp only [overlaps, pyth]
    rw [hs2]
    push_cast
    norm_num
  have hpair : pairwiseNonOverlap [⟨5, ⟨20, 600⟩, ⟨9, 0⟩⟩, ⟨5, ⟨31, 600⟩, ⟨0, 0⟩⟩] := by
    intro i j hi hj hij
    simp only [List.length_cons, List.length_nil] at hi hj
    interval_cases i <;> interval_cases j
    · exact absurd rfl hij
    · exact hno1
    · exact hno2
    · exact absurd rfl hij
  have hscan0 : scan [⟨5, ⟨20, 600⟩, ⟨9, 0⟩⟩, ⟨5, ⟨31, 600⟩, ⟨0, 0⟩⟩] 0 = none :=
    scan_none_of_nonoverlap _ hpair 0 (by simp)
  have hmv : bounceWall (moveBall (nth [⟨5, ⟨20, 600⟩, ⟨9, 0⟩⟩, ⟨5, ⟨31, 600⟩, ⟨0, 0⟩⟩] 0))
      = (⟨5, ⟨29, 600⟩, ⟨9, 0⟩⟩ : Ball) := by
    norm_num [nth, moveBall, bounceWall, SCREEN_WIDTH, SCREEN_HEIGHT, Ball.mk.injEq,
      vec2.mk.injEq]
  have hstep0 : stepBall [⟨5, ⟨20, 600⟩, ⟨9, 0⟩⟩, ⟨5, ⟨31, 600⟩, ⟨0, 0⟩⟩] 0
      = [⟨5, ⟨29, 600⟩, ⟨9, 0⟩⟩, ⟨5, ⟨31, 600⟩, ⟨0, 0⟩⟩] := by
    simp only [stepBall, hscan0]
    rw [hmv]
    rfl
  have hscan1 : scan [⟨5, ⟨29, 600⟩, ⟨9, 0⟩⟩, ⟨5, ⟨31, 600⟩, ⟨0, 0⟩⟩] 1 = some 0 := by
    have e1 : nth [⟨5, ⟨29, 600⟩, ⟨9, 0⟩⟩, ⟨5, ⟨31, 600⟩, ⟨0, 0⟩⟩] 1
        = (⟨5, ⟨31, 600⟩, ⟨0, 0⟩⟩ : Ball) := rfl
    have e0 : nth [⟨5, ⟨29, 600⟩, ⟨9, 0⟩⟩, ⟨5, ⟨31, 600⟩, ⟨0, 0⟩⟩] 0
        = (⟨5, ⟨29, 600⟩, ⟨9, 0⟩⟩ : Ball) := rfl
    rw [scan]
    rw [show List.range ([⟨5, ⟨29, 600⟩, ⟨9, 0⟩⟩,
      ⟨5, ⟨31, 600⟩, ⟨0, 0⟩⟩] : List Ball).length = [0, 1] from rfl]
    simp [scanList, e1, e0, hyes]
  refine ⟨hpair, ?_⟩
  rw [bounceCount]
  rw [show List.range ([⟨5, ⟨20, 600⟩, ⟨9, 0⟩⟩,
    ⟨5, ⟨31, 600⟩, ⟨0, 0⟩⟩] : List Ball).length = [0, 1] from rfl]
  simp only [List.foldl_cons, List.foldl_nil, stepCount, hscan0, hstep0, hscan1]

end BouncyBalls
